import Mathlib

/-!
Shallow embedding of the OracleX relay server
(`src/oraclex_relay_v3_railway_fixed.js`, the Railway production revision).

JSON-carried values are modelled by `JValue`.  The relay's global mutable
state (`marketState`, `dashboardCache`, `commandQueue`, `pendingApprovals`,
`receipts`) is a `ServerState` record, and every HTTP handler becomes a pure
function `… → ServerState → Result × ServerState`.  `Date.now()` is passed in
as an explicit `now : Nat` (milliseconds).  JavaScript `TypeError`s raised by
accessing a property of `null` (the only JSON value whose property access
throws) are modelled with `Except Unit`; the surrounding `try/catch` of each
handler turns them into a 500 response carrying whatever state mutations had
already happened.
-/

namespace OracleX

/-- JSON values as delivered by `express.json()`.  JavaScript numbers are
modelled as rationals: the handlers never perform arithmetic on payload
numbers, so the exact representation is irrelevant; `undefined` is not a
JSON value and is represented by `Option.none` at field-access level. -/
inductive JValue where
  | null
  | bool (b : Bool)
  | num (q : Rat)
  | str (s : String)
  | arr (elems : List JValue)
  | obj (fields : List (String × JValue))

/-- Object field lists, as produced by `JSON.parse` (keys unique per object). -/
abbrev Obj := List (String × JValue)

/-- Lookup of an own property on an object's field list (first match). -/
def getF (o : Obj) (k : String) : Option JValue :=
  (o.find? (fun p => p.1 == k)).map (fun p => p.2)

/-- Whether key `k` occurs in the field list. -/
def hasKey (o : Obj) (k : String) : Bool :=
  (getF o k).isSome

/-- JavaScript truthiness of a JSON value (`NaN` cannot occur in JSON). -/
def truthyV : JValue → Bool
  | .null => false
  | .bool b => b
  | .num q => decide (q ≠ 0)
  | .str s => decide (s ≠ "")
  | .arr _ => true
  | .obj _ => true

/-- Truthiness of a possibly-`undefined` value. -/
def truthy : Option JValue → Bool
  | none => false
  | some v => truthyV v

/-- The JavaScript `a || b` default idiom on a possibly-`undefined` `a`. -/
def jsOr (a : Option JValue) (b : JValue) : JValue :=
  match a with
  | some v => if truthyV v then v else b
  | none => b

/-- JavaScript `===` / `SameValueZero` on JSON-derived values.  Arrays and
objects compare by reference in JavaScript; two distinct `JSON.parse` results
are never identical, so the structural cases return `false`. -/
def svz : JValue → JValue → Bool
  | .null, .null => true
  | .bool a, .bool b => a == b
  | .num a, .num b => a == b
  | .str a, .str b => a == b
  | _, _ => false

/-- JavaScript `===` on possibly-`undefined` values
(`undefined === undefined` is `true`). -/
def strictEqOpt : Option JValue → Option JValue → Bool
  | none, none => true
  | some a, some b => svz a b
  | _, _ => false

/-- Property access `v.k` where `v` is known not to be `null` (and also the
optional-chaining access `v?.k`): objects yield the own property or
`undefined`; JSON-derived primitives and arrays have none of the string
properties these handlers read. -/
def fieldOf : JValue → String → Option JValue
  | .obj fs, k => getF fs k
  | _, _ => none

/-- Plain property access `v.k`: throws a `TypeError` when `v` is `null`. -/
def getField : JValue → String → Except Unit (Option JValue)
  | .null, _ => .error ()
  | v, k => .ok (fieldOf v k)

/-- Whether a value is JSON `null` (destructuring or property access on it
throws a `TypeError`). -/
def isNullJ : JValue → Bool
  | .null => true
  | _ => false

/-- Field list of the spread `{...a, ...b}`: keys of `a` in order with values
overridden by `b` where `b` has the key, followed by the keys of `b` not in
`a`.  (JSON-derived primitives and arrays spread none of the string-named
fields these handlers ever read, see `toObjFields`.) -/
def spreadFields (a b : Obj) : Obj :=
  a.map (fun p => match getF b p.1 with | some v => (p.1, v) | none => p)
    ++ b.filter (fun p => !(hasKey a p.1))

/-- Own string-keyed fields contributed by a value in an object spread:
objects contribute their fields, `null` and primitives contribute nothing.
(Arrays and strings would contribute index keys "0", "1", …, which none of
the relay's field reads ever mention.) -/
def toObjFields : JValue → Obj
  | .obj fs => fs
  | _ => []

/-- The merge `{...existing, ...incoming}` performed by `/update-market-state`
on a matched record. -/
def mergeJS (existing incoming : JValue) : JValue :=
  .obj (spreadFields (toObjFields existing) (toObjFields incoming))

/-- Status of a tracked signal (`pendingApprovals` values). -/
inductive SigStatus where
  | PENDING
  | APPROVED
deriving DecidableEq

/-- A `pendingApprovals` entry value: `{ signal, status, created_at }`. -/
structure Pending where
  signal : JValue
  status : SigStatus
  created_at : Nat

/-- The queue object built by `/approve-signal` and pushed on `commandQueue`. -/
structure QueuedCmd where
  cmd_id : JValue
  symbol : Option JValue
  action : Option JValue
  lot : JValue
  sl : Option JValue
  tp : Option JValue
  price : Option JValue
  comment : JValue

/-- The object cached by `/market-analysis` per symbol (exact field list of
the `dashboardCache.set` call; fields absent from the payload are stored as
`undefined`, i.e. `none`). -/
structure AnalysisRec where
  bias : Option JValue
  green_count : Option JValue
  confidence : Option JValue
  insight : Option JValue
  indicators : Option JValue
  market_regime : Option JValue
  bias_stability : Option JValue
  confluence_breakdown : Option JValue
  context_history : Option JValue
  state_statistics : Option JValue
  current_session : Option JValue
  session_intelligence : Option JValue
  strategies : Option JValue
  confluence : Option JValue
  last_update : Nat

/-- The whole mutable state of the relay process. -/
structure ServerState where
  market_data : List JValue
  timestamp : Option Nat
  dashboardCache : List (JValue × AnalysisRec)
  commandQueue : List QueuedCmd
  pendingApprovals : List (JValue × Pending)
  receipts : List JValue

/-- State at process start. -/
def initialServerState : ServerState :=
  { market_data := []
    timestamp := none
    dashboardCache := []
    commandQueue := []
    pendingApprovals := []
    receipts := [] }

/-- `Map.prototype.get`, keyed by `SameValueZero`; `get(undefined)` misses
(no handler ever stores an entry under a falsy key). -/
def mapGet {α : Type} (m : List (JValue × α)) : Option JValue → Option α
  | none => none
  | some k => (m.find? (fun p => svz p.1 k)).map (fun p => p.2)

/-- `Map.prototype.set`: replace the (unique) matching entry in place, else
append a new entry at the end. -/
def mapSet {α : Type} : List (JValue × α) → JValue → α → List (JValue × α)
  | [], k, v => [(k, v)]
  | p :: rest, k, v =>
      if svz p.1 k then (p.1, v) :: rest else p :: mapSet rest k v

/-- `Map.prototype.delete`: a `Map` holds at most one entry per key, so
removal of the matching entry is modelled by filtering it out. -/
def mapDelete {α : Type} (m : List (JValue × α)) (k : JValue) :
    List (JValue × α) :=
  m.filter (fun p => !(svz p.1 k))

/-- In-place mutation of the object stored under `k`
(`pendingApprovals.get(id).status = …`). -/
def mapUpdate {α : Type} : List (JValue × α) → JValue → (α → α) →
    List (JValue × α)
  | [], _, _ => []
  | p :: rest, k, f =>
      if svz p.1 k then (p.1, f p.2) :: rest else p :: mapUpdate rest k f

/-- Response of `/update-market-state` (and `/market-analysis`):
`ok` carries the reported count, `badRequest` is the 400 shape rejection,
`serverError` the 500 produced by the `catch` block. -/
inductive BatchResult where
  | ok (count : Nat)
  | badRequest
  | serverError
deriving DecidableEq

/-- The `findIndex(s => s.symbol === newSymbol.symbol)` scan: evaluates
`s.symbol` on each stored element in order (throwing on a `null` element)
until the strict equality holds. -/
def findSymbolIdx : List JValue → Option JValue → Except Unit (Option Nat)
  | [], _ => .ok none
  | s :: rest, nk => do
      let sk ← getField s "symbol"
      if strictEqOpt sk nk then
        .ok (some 0)
      else do
        let r ← findSymbolIdx rest nk
        .ok (r.map Nat.succ)

/-- One iteration of the `/update-market-state` merge loop: read the incoming
symbol (throws on `null`), look for an existing record, merge in place or
push. -/
def upsertOne (store : List JValue) (e : JValue) :
    Except Unit (List JValue) := do
  let nk ← getField e "symbol"
  let idx ← findSymbolIdx store nk
  match idx with
  | some i => .ok (store.set i (mergeJS (store.getD i .null) e))
  | none => .ok (store ++ [e])

/-- The whole `market_data.forEach` loop; a thrown `TypeError` aborts the
loop, leaving the mutations already applied (first component records whether
a throw happened). -/
def upsertAll : List JValue → List JValue → Bool × List JValue
  | store, [] => (false, store)
  | store, e :: rest =>
      match upsertOne store e with
      | .error _ => (true, store)
      | .ok store' => upsertAll store' rest

/-- Handler of `POST /update-market-state`. -/
def updateMarketState (body : JValue) (now : Nat) (st : ServerState) :
    BatchResult × ServerState :=
  if isNullJ body then (.serverError, st) else
    match fieldOf body "market_data" with
    | some (.arr es) =>
        let r := upsertAll st.market_data es
        if r.1 then
          (.serverError, { st with market_data := r.2 })
        else
          (.ok r.2.length, { st with market_data := r.2, timestamp := some now })
    | _ => (.badRequest, st)

/-- The object literal cached per symbol by `/market-analysis` (each field is
the corresponding payload property, `last_update` is `Date.now()`). -/
def mkAnalysisRec (e : JValue) (now : Nat) : AnalysisRec :=
  { bias := fieldOf e "bias"
    green_count := fieldOf e "green_count"
    confidence := fieldOf e "confidence"
    insight := fieldOf e "insight"
    indicators := fieldOf e "indicators"
    market_regime := fieldOf e "market_regime"
    bias_stability := fieldOf e "bias_stability"
    confluence_breakdown := fieldOf e "confluence_breakdown"
    context_history := fieldOf e "context_history"
    state_statistics := fieldOf e "state_statistics"
    current_session := fieldOf e "current_session"
    session_intelligence := fieldOf e "session_intelligence"
    strategies := fieldOf e "strategies"
    confluence := fieldOf e "confluence"
    last_update := now }

/-- The `market_data.forEach` loop of `/market-analysis`: cache each element
whose `symbol` property is truthy; accessing `.symbol` of a `null` element
throws and aborts the loop. -/
def putAll (now : Nat) :
    List (JValue × AnalysisRec) → List JValue → Bool × List (JValue × AnalysisRec)
  | cache, [] => (false, cache)
  | cache, e :: rest =>
      match getField e "symbol" with
      | .error _ => (true, cache)
      | .ok sym =>
          let cache' :=
            match sym with
            | some k => if truthyV k then mapSet cache k (mkAnalysisRec e now) else cache
            | none => cache
          putAll now cache' rest

/-- Handler of `POST /market-analysis`. -/
def marketAnalysis (body : JValue) (now : Nat) (st : ServerState) :
    BatchResult × ServerState :=
  if isNullJ body then (.serverError, st) else
    match fieldOf body "market_data" with
    | some (.arr es) =>
        let r := putAll now st.dashboardCache es
        if r.1 then
          (.serverError, { st with dashboardCache := r.2 })
        else
          let ts := match st.timestamp with | none => some now | some t => some t
          (.ok es.length, { st with dashboardCache := r.2, timestamp := ts })
    | _ => (.badRequest, st)

/-- Response of `POST /submit-signal`. -/
inductive SubmitResult where
  | pendingApproval (cmd_id : JValue) (auto_approve_in_sec : Nat)
  | badRequest
  | serverError

/-- Handler of `POST /submit-signal`: reject when `symbol` or `action` is
falsy; otherwise track the signal as `PENDING` under the caller's `cmd_id`
or a generated `OX_<Date.now()>` id, and report a 30-second countdown. -/
def submitSignal (body : JValue) (now : Nat) (st : ServerState) :
    SubmitResult × ServerState :=
  if isNullJ body then (.serverError, st) else
    if truthy (fieldOf body "symbol") && truthy (fieldOf body "action") then
      let cmdId := jsOr (fieldOf body "cmd_id") (.str ("OX_" ++ toString now))
      (.pendingApproval cmdId 30,
        { st with
            pendingApprovals :=
              mapSet st.pendingApprovals cmdId
                ⟨body, .PENDING, now / 1000⟩ })
    else
      (.badRequest, st)

/-- Response of `POST /approve-signal` (the v3 handler answers `{ok: true}`
even for an unknown id). -/
inductive ApproveResult where
  | ok
  | serverError
deriving DecidableEq

/-- The queue object built inside `/approve-signal`. -/
def buildQueueSignal (cmdId : JValue) (lot : Option JValue) (sig : JValue) :
    QueuedCmd :=
  { cmd_id := cmdId
    symbol := fieldOf sig "symbol"
    action := fieldOf sig "action"
    lot := jsOr lot (jsOr (fieldOf sig "lot") (.num (1 / 10)))
    sl := fieldOf sig "sl"
    tp := fieldOf sig "tp"
    price := fieldOf sig "price"
    comment := jsOr (fieldOf sig "comment") (.str "ORACLEX") }

/-- Handler of `POST /approve-signal`: on a tracked id, mark the entry
`APPROVED` in place and push the built command; on an unknown id do nothing;
answer `{ok: true}` either way.  (A tracked `null` signal would throw after
the status mutation; unreachable through `/submit-signal`.) -/
def approveSignal (body : JValue) (st : ServerState) :
    ApproveResult × ServerState :=
  if isNullJ body then (.serverError, st) else
    match fieldOf body "cmd_id" with
    | none => (.ok, st)
    | some k =>
        match mapGet st.pendingApprovals (some k) with
        | none => (.ok, st)
        | some p =>
            let approved :=
              mapUpdate st.pendingApprovals k (fun q => { q with status := .APPROVED })
            if isNullJ p.signal then
              (.serverError, { st with pendingApprovals := approved })
            else
              (.ok,
                { st with
                    pendingApprovals := approved
                    commandQueue :=
                      st.commandQueue ++
                        [buildQueueSignal k (fieldOf body "lot") p.signal] })

/-- Response of `GET /last-signal`: the drained command, or the
`{action: 'NONE'}` sentinel. -/
inductive PollResult where
  | cmd (c : QueuedCmd)
  | noneSentinel

/-- Handler of `GET /last-signal`: destructive `commandQueue.shift()`. -/
def lastSignal (st : ServerState) : PollResult × ServerState :=
  match st.commandQueue with
  | [] => (.noneSentinel, st)
  | c :: rest => (.cmd c, { st with commandQueue := rest })

/-- Response of `POST /execution-receipt`. -/
inductive ReceiptResult where
  | ok
  | serverError
deriving DecidableEq

/-- Handler of `POST /execution-receipt`: append the receipt unconditionally,
then delete the tracked signal when `receipt.cmd_id` is truthy.  A `null`
body throws at `receipt.cmd_id` after the receipt was already pushed. -/
def executionReceipt (body : JValue) (st : ServerState) :
    ReceiptResult × ServerState :=
  let st1 := { st with receipts := st.receipts ++ [body] }
  match getField body "cmd_id" with
  | .error _ => (.serverError, st1)
  | .ok cid =>
      match cid with
      | some k =>
          if truthyV k then
            (.ok, { st1 with pendingApprovals := mapDelete st1.pendingApprovals k })
          else
            (.ok, st1)
      | none => (.ok, st1)

/-- Response of `POST /data-update` and `POST /flush-queue`. -/
inductive SimpleResult where
  | ok
  | serverError
deriving DecidableEq

/-- Handler of `POST /data-update`: wholesale replacement of `marketState`
when `market_data` is an array, silently ignored otherwise. -/
def dataUpdate (body : JValue) (now : Nat) (st : ServerState) :
    SimpleResult × ServerState :=
  if isNullJ body then (.serverError, st) else
    match fieldOf body "market_data" with
    | some (.arr es) => (.ok, { st with market_data := es, timestamp := some now })
    | _ => (.ok, st)

/-- Handler of `POST /flush-queue`. -/
def flushQueue (st : ServerState) : SimpleResult × ServerState :=
  (.ok, { st with commandQueue := [] })

/-- Combined per-symbol record produced by `mergeSymbolData` (all defaults
already substituted, so every field is a definite value). -/
structure MergedRec where
  symbol : JValue
  price : JValue
  bid : JValue
  ask : JValue
  price_change_1h : JValue
  h1_high : JValue
  h1_low : JValue
  m5_high : JValue
  m5_low : JValue
  spread_points : JValue
  bias : JValue
  green_count : JValue
  confidence : JValue
  insight : JValue
  indicators : JValue
  market_regime : JValue
  bias_stability : JValue
  confluence_breakdown : JValue
  context_history : JValue
  state_statistics : JValue
  current_session : JValue
  session_intelligence : JValue
  strategies : JValue
  confluence : JValue
  ohlcv_micro : JValue
  ohlcv_macro : JValue
  open_trades : JValue
  pending_orders : JValue

/-- Default `market_regime` object. -/
def defaultMarketRegime : JValue :=
  .obj [("trend", .str "Unknown"), ("volatility", .str "Normal"),
        ("structure", .str "Choppy")]

/-- Default `bias_stability` object. -/
def defaultBiasStability : JValue :=
  .obj [("active_since_minutes", .num 0), ("last_flip_minutes_ago", .null)]

/-- Default `confluence_breakdown` object (weights 40/30/20/10). -/
def defaultConfluenceBreakdown : JValue :=
  .obj [("ema_trend", .obj [("active", .num 0), ("weight", .num 40),
                            ("name", .str "EMA Trend")]),
        ("momentum", .obj [("active", .num 0), ("weight", .num 30),
                           ("name", .str "Momentum")]),
        ("structure", .obj [("active", .num 0), ("weight", .num 20),
                            ("name", .str "Structure")]),
        ("filters", .obj [("active", .num 0), ("weight", .num 10),
                          ("name", .str "Filters")])]

/-- The `mergeSymbolData(mql5Data, pythonData)` helper: price/technical
fields from the stored MQL5 record, analysis fields from the cached Python
record (optional-chained, hence total in `pythonData`), with the documented
defaults.  The caller has already evaluated `mql5Data.symbol`, so
`mql5Data` is not `null` here and the remaining accesses are total. -/
def mergeSymbolData (mql5 : JValue) (python : Option AnalysisRec) : MergedRec :=
  { symbol := jsOr (fieldOf mql5 "symbol") (.str "UNKNOWN")
    price := jsOr (fieldOf mql5 "price") (jsOr (fieldOf mql5 "ask") (.num 0))
    bid := jsOr (fieldOf mql5 "bid") (.num 0)
    ask := jsOr (fieldOf mql5 "ask") (.num 0)
    price_change_1h := jsOr (fieldOf mql5 "price_change_1h") (.num 0)
    h1_high := jsOr (fieldOf mql5 "h1_high") (.num 0)
    h1_low := jsOr (fieldOf mql5 "h1_low") (.num 0)
    m5_high := jsOr (fieldOf mql5 "m5_high") (.num 0)
    m5_low := jsOr (fieldOf mql5 "m5_low") (.num 0)
    spread_points := jsOr (fieldOf mql5 "spread_points") (.num 0)
    bias := jsOr (python.bind (fun p => p.bias)) (.str "NEUTRAL")
    green_count := jsOr (python.bind (fun p => p.green_count)) (.num 0)
    confidence := jsOr (python.bind (fun p => p.confidence)) (.num 0)
    insight := jsOr (python.bind (fun p => p.insight)) (.str "Analyzing...")
    indicators := jsOr (python.bind (fun p => p.indicators)) (.obj [])
    market_regime := jsOr (python.bind (fun p => p.market_regime)) defaultMarketRegime
    bias_stability := jsOr (python.bind (fun p => p.bias_stability)) defaultBiasStability
    confluence_breakdown :=
      jsOr (python.bind (fun p => p.confluence_breakdown)) defaultConfluenceBreakdown
    context_history := jsOr (python.bind (fun p => p.context_history)) (.arr [])
    state_statistics := jsOr (python.bind (fun p => p.state_statistics)) (.obj [])
    current_session := jsOr (python.bind (fun p => p.current_session)) (.str "Unknown")
    session_intelligence :=
      jsOr (python.bind (fun p => p.session_intelligence)) (.obj [])
    strategies := jsOr (python.bind (fun p => p.strategies)) (.arr [])
    confluence := jsOr (python.bind (fun p => p.confluence)) (.obj [])
    ohlcv_micro := jsOr (fieldOf mql5 "ohlcv_micro") (.arr [])
    ohlcv_macro := jsOr (fieldOf mql5 "ohlcv_macro") (.arr [])
    open_trades := jsOr (fieldOf mql5 "open_trades") (.arr [])
    pending_orders := jsOr (fieldOf mql5 "pending_orders") (.arr []) }

/-- The `marketState.market_data.map(...)` body of `getCompleteMarketState`:
for each stored record, read its `symbol` (throws on a `null` record), look
the analysis record up in `dashboardCache`, and merge. -/
def buildAll (cache : List (JValue × AnalysisRec)) :
    List JValue → Except Unit (List MergedRec)
  | [] => .ok []
  | e :: rest => do
      let sym ← getField e "symbol"
      let merged := mergeSymbolData e (mapGet cache sym)
      let tail ← buildAll cache rest
      .ok (merged :: tail)

/-- Envelope returned by `GET /get-market-state`. -/
structure CompleteState where
  market_data : List MergedRec
  timestamp : Option Nat
  data_age_sec : Nat
  symbols_count : Nat

/-- The `getCompleteMarketState()` helper serving `GET /get-market-state`. -/
def getCompleteMarketState (st : ServerState) (now : Nat) :
    Except Unit CompleteState := do
  let data ← buildAll st.dashboardCache st.market_data
  .ok { market_data := data
        timestamp := st.timestamp
        data_age_sec :=
          match st.timestamp with
          | some t => if t = 0 then 0 else (now - t) / 1000
          | none => 0
        symbols_count := data.length }

/-- Item of the `GET /pending-approvals` listing. -/
structure PendingItem where
  cmd_id : JValue
  symbol : Option JValue
  action : Option JValue
  status : SigStatus
  created_at : Nat

/-- Handler of `GET /pending-approvals` (`pending.signal?.symbol` is
optional chaining, hence total). -/
def pendingItems (st : ServerState) : List PendingItem :=
  st.pendingApprovals.map (fun p =>
    { cmd_id := p.1
      symbol := fieldOf p.2.signal "symbol"
      action := fieldOf p.2.signal "action"
      status := p.2.status
      created_at := p.2.created_at })

/-!  Derived notions used to state the verified properties. -/

/-- First-defined-wins choice on possibly-absent field values (the lookup
semantics of the object spread). -/
def fieldOr (a b : Option JValue) : Option JValue :=
  match a with
  | some v => some v
  | none => b

/-- The command, if any, that a single `/approve-signal` call on state `st`
appends to the queue (mirrors the handler's branches). -/
def emittedCmd (body : JValue) (st : ServerState) : Option QueuedCmd :=
  if isNullJ body then none else
    match fieldOf body "cmd_id" with
    | none => none
    | some k =>
        match mapGet st.pendingApprovals (some k) with
        | none => none
        | some p =>
            if isNullJ p.signal then none
            else some (buildQueueSignal k (fieldOf body "lot") p.signal)

/-- State after a sequence of `/approve-signal` calls. -/
def applyApproves (bodies : List JValue) (st : ServerState) : ServerState :=
  bodies.foldl (fun s b => (approveSignal b s).2) st

/-- The commands the sequence of `/approve-signal` calls emits, in call
order. -/
def approvedCmds : List JValue → ServerState → List QueuedCmd
  | [], _ => []
  | b :: bs, st =>
      (emittedCmd b st).toList ++ approvedCmds bs (approveSignal b st).2

/-- Whether every `/approve-signal` call in the sequence succeeds in
queueing a command (its `cmd_id` is tracked at the moment of the call). -/
def allSucceed : List JValue → ServerState → Bool
  | [], _ => true
  | b :: bs, st =>
      (emittedCmd b st).isSome && allSucceed bs (approveSignal b st).2

/-- Results and final state of `k` successive `GET /last-signal` polls. -/
def pollMany : Nat → ServerState → List PollResult × ServerState
  | 0, st => ([], st)
  | k + 1, st =>
      let r := lastSignal st
      let rest := pollMany k r.2
      (r.1 :: rest.1, rest.2)

/-- A `/update-market-state` body carrying a single record. -/
def singleRecordBody (u : Obj) : JValue :=
  .obj [("market_data", .arr [.obj u])]

/-- State after a sequence of single-record `/update-market-state` calls. -/
def runUpserts (us : List Obj) (st : ServerState) : ServerState :=
  us.foldl (fun s u => (updateMarketState (singleRecordBody u) 0 s).2) st

/-- The value of field `k` after a sequence of partial updates: the value
set by the last update whose record contains the key, absent if none did. -/
def lastVal (us : List Obj) (k : String) : Option JValue :=
  us.foldl (fun acc u => fieldOr (getF u k) acc) none

/-!  Concrete instances used by the verification. -/

/-- First partial price update: sets `price` and `bid` for symbol S. -/
def stickyU1 : Obj := [("symbol", .str "S"), ("price", .num 5), ("bid", .num 3)]

/-- Second partial price update: carries an explicit JSON `null` `price`. -/
def stickyU2 : Obj := [("symbol", .str "S"), ("price", .null)]

/-- A price batch whose second element is JSON `null` (faults mid-loop). -/
def partialBatchBody : JValue :=
  .obj [("market_data",
         .arr [.obj [("symbol", .str "A"), ("price", .num 1)], .null])]

/-- A price batch with a single record lacking the `symbol` key. -/
def keylessBatchBody : JValue :=
  .obj [("market_data", .arr [.obj [("price", .num 5)]])]

/-- State whose only price record has no `symbol` key (reachable through
`POST /data-update`). -/
def noSymState : ServerState :=
  (dataUpdate keylessBatchBody 500 initialServerState).2

/-- State with one symbol-keyed price record and one analysis record for a
different symbol. -/
def viewState : ServerState :=
  { initialServerState with
      market_data := [.obj [("symbol", .str "XAUUSD"), ("bid", .num 10)]]
      dashboardCache :=
        [(.str "EURUSD", mkAnalysisRec (.obj [("symbol", .str "EURUSD")]) 3)] }

/-- The merged view `GET /get-market-state` serves on `viewState`. -/
def viewCS : CompleteState :=
  { market_data :=
      [mergeSymbolData (.obj [("symbol", .str "XAUUSD"), ("bid", .num 10)]) none]
    timestamp := none
    data_age_sec := 0
    symbols_count := 1 }

/-- An analysis payload for symbol X that sets `bias` only. -/
def analysisPayload : Obj := [("symbol", .str "X"), ("bias", .str "BULL")]

/-- A state already holding an older analysis record for symbol X. -/
def analysisPriorState : ServerState :=
  { initialServerState with
      dashboardCache :=
        [(.str "X", mkAnalysisRec (.obj [("symbol", .str "X"),
                                         ("insight", .str "old")]) 1)] }

/-- The signal body submitted in the workflow examples. -/
def fifoSignalBody : JValue :=
  .obj [("symbol", .str "XAUUSD"), ("action", .str "BUY"), ("cmd_id", .str "OX_1")]

/-- State after submitting `fifoSignalBody` (tracks `OX_1` as PENDING). -/
def fifoSubmitted : ServerState :=
  (submitSignal fifoSignalBody 1000 initialServerState).2

/-- A single approval call for `OX_1`. -/
def fifoBodies : List JValue := [.obj [("cmd_id", .str "OX_1")]]

/-- State holding an already-APPROVED tracked signal `OX_1`. -/
def receiptState : ServerState :=
  { initialServerState with
      pendingApprovals :=
        [(.str "OX_1", ⟨.obj [("symbol", .str "XAUUSD")], .APPROVED, 5⟩)] }

/-- A receipt for command `OX_1`. -/
def receiptBody : JValue :=
  .obj [("cmd_id", .str "OX_1"), ("status", .str "FILLED")]

/-!  Lemmas about field lookup and the object spread. -/

theorem getF_nil (k : String) : getF [] k = none := rfl

theorem getF_cons (p : String × JValue) (o : Obj) (k : String) :
    getF (p :: o) k = if p.1 == k then some p.2 else getF o k := by
  cases h : p.1 == k <;> simp [getF, List.find?, h]

theorem getF_append (a b : Obj) (k : String) :
    getF (a ++ b) k = fieldOr (getF a k) (getF b k) := by
  induction a with
  | nil => simp [getF_nil, fieldOr]
  | cons p rest ih =>
      rw [List.cons_append, getF_cons, getF_cons]
      cases h : p.1 == k
      · simpa [h] using ih
      · simp [h, fieldOr]

theorem getF_map_spread (a b : Obj) (k : String) :
    getF (a.map (fun p => match getF b p.1 with | some v => (p.1, v) | none => p)) k
      = match getF a k with
        | some v => fieldOr (getF b k) (some v)
        | none => none := by
  induction a with
  | nil => rfl
  | cons p rest ih =>
      rw [List.map_cons]
      cases hb : getF b p.1
      · rw [getF_cons, getF_cons]
        cases h : p.1 == k
        · simpa [h] using ih
        · have hk : p.1 = k := beq_iff_eq.mp h
          subst hk
          simp [h, hb, fieldOr]
      · rw [getF_cons, getF_cons]
        cases h : p.1 == k
        · simpa [h] using ih
        · have hk : p.1 = k := beq_iff_eq.mp h
          subst hk
          simp [h, hb, fieldOr]

theorem getF_filter_not_hasKey (a b : Obj) (k : String) :
    getF (b.filter (fun p => !(hasKey a p.1))) k
      = if hasKey a k then none else getF b k := by
  induction b with
  | nil => simp [getF_nil]
  | cons p rest ih =>
      rw [List.filter_cons]
      cases h : p.1 == k
      · cases ha : hasKey a p.1 <;> simp [ha, getF_cons, h, ih]
      · have hk : p.1 = k := beq_iff_eq.mp h
        subst hk
        cases ha : hasKey a p.1 <;> simp [ha, getF_cons, h, ih]

theorem getF_spreadFields (a b : Obj) (k : String) :
    getF (spreadFields a b) k = fieldOr (getF b k) (getF a k) := by
  rw [spreadFields, getF_append, getF_map_spread, getF_filter_not_hasKey]
  cases ha : getF a k <;> cases hb : getF b k <;>
    simp [fieldOr, hasKey, ha, hb]

theorem spreadFields_nil (u : Obj) : spreadFields [] u = u := by
  simp [spreadFields, hasKey, getF]

/-!  Lemmas about the `Map` model. -/

theorem mapGet_mapSet_self {α : Type} (m : List (JValue × α)) (k : JValue)
    (v : α) (hk : svz k k = true) :
    mapGet (mapSet m k v) (some k) = some v := by
  induction m with
  | nil => simp [mapSet, mapGet, List.find?, hk]
  | cons p rest ih =>
      rw [mapSet]
      cases h : svz p.1 k <;> simp only [h, if_true, if_false, Bool.false_eq_true,
        ite_true, ite_false]
      · simpa [mapGet, List.find?, h] using ih
      · simp [mapGet, List.find?, h]

theorem mapGet_mapUpdate_self {α : Type} (m : List (JValue × α)) (k : JValue)
    (f : α → α) :
    mapGet (mapUpdate m k f) (some k) = (mapGet m (some k)).map f := by
  induction m with
  | nil => rfl
  | cons p rest ih =>
      rw [mapUpdate]
      cases h : svz p.1 k <;> simp only [h, Bool.false_eq_true, ite_true, ite_false]
      · simpa [mapGet, List.find?, h] using ih
      · simp [mapGet, List.find?, h]

theorem mapGet_mapDelete_self {α : Type} (m : List (JValue × α)) (k : JValue) :
    mapGet (mapDelete m k) (some k) = none := by
  induction m with
  | nil => rfl
  | cons p rest ih =>
      rw [mapDelete, List.filter_cons]
      cases h : svz p.1 k <;> simp only [h, Bool.not_false, Bool.not_true,
        Bool.false_eq_true, ite_true, ite_false]
      · simp [mapGet, List.find?, h, mapDelete]
      · simpa [mapDelete] using ih

theorem mapDelete_keys {α : Type} (m : List (JValue × α)) (k : JValue) :
    ∀ p ∈ mapDelete m k, svz p.1 k = false := by
  intro p hp
  have := List.of_mem_filter hp
  simpa using this

/-!  Lemmas about the approval queue and the polling loop. -/

theorem approveSignal_queue (b : JValue) (st : ServerState) :
    (approveSignal b st).2.commandQueue
      = st.commandQueue ++ (emittedCmd b st).toList := by
  rw [approveSignal, emittedCmd]
  cases hn : isNullJ b
  · simp only [Bool.false_eq_true, ite_false]
    cases hc : fieldOf b "cmd_id"
    · simp
    · rename_i k
      cases hg : mapGet st.pendingApprovals (some k)
      · simp [hg]
      · rename_i p
        cases hs : isNullJ p.signal <;> simp [hg, hs]
  · simp

theorem applyApproves_queue (bs : List JValue) (st : ServerState) :
    (applyApproves bs st).commandQueue = st.commandQueue ++ approvedCmds bs st := by
  induction bs generalizing st with
  | nil => simp [applyApproves, approvedCmds]
  | cons b bs ih =>
      show (applyApproves bs (approveSignal b st).2).commandQueue = _
      rw [ih, approveSignal_queue, approvedCmds, List.append_assoc]

theorem pollMany_results (n : Nat) :
    ∀ st : ServerState,
      (pollMany n st).1
        = (st.commandQueue.take n).map PollResult.cmd
          ++ List.replicate (n - st.commandQueue.length) PollResult.noneSentinel := by
  induction n with
  | zero => intro st; simp [pollMany]
  | succ n ih =>
      intro st
      rw [pollMany]
      cases hq : st.commandQueue with
      | nil => simp [lastSignal, hq, ih st, List.replicate_succ]
      | cons c rest =>
          have hstep :
              lastSignal st = (.cmd c, { st with commandQueue := rest }) := by
            rw [lastSignal, hq]
          simp [hstep, ih { st with commandQueue := rest }, hq,
            Nat.succ_sub_succ]

theorem pollMany_drained (n : Nat) :
    ∀ st : ServerState, st.commandQueue.length ≤ n →
      (pollMany n st).2.commandQueue = [] := by
  induction n with
  | zero =>
      intro st h
      have : st.commandQueue = [] := List.eq_nil_of_length_eq_zero (Nat.le_zero.mp h)
      simpa [pollMany] using this
  | succ n ih =>
      intro st h
      rw [pollMany]
      cases hq : st.commandQueue with
      | nil =>
          have hstep : lastSignal st = (.noneSentinel, st) := by
            rw [lastSignal, hq]
          exact ih st (by simp [hq]) ▸ by simp [hstep, ih st (by simp [hq])]
      | cons c rest =>
          have hstep :
              lastSignal st = (.cmd c, { st with commandQueue := rest }) := by
            rw [lastSignal, hq]
          have hlen : rest.length ≤ n := by
            have := h
            rw [hq] at this
            simpa [Nat.succ_le_succ_iff] using this
          simp [hstep, ih { st with commandQueue := rest } hlen]

/-!  Lemmas about the single-record upsert sequence. -/

theorem upsert_step_first (u : Obj) (st : ServerState) (n : Nat)
    (hst : st.market_data = []) :
    (updateMarketState (singleRecordBody u) n st).2.market_data = [.obj u] := by
  rw [updateMarketState, hst]
  rfl

theorem upsert_step_existing (fs u : Obj) (sym : String) (st : ServerState)
    (n : Nat) (hst : st.market_data = [.obj fs])
    (hfs : getF fs "symbol" = some (.str sym))
    (hu : getF u "symbol" = some (.str sym)) :
    (updateMarketState (singleRecordBody u) n st).2.market_data
      = [.obj (spreadFields fs u)] := by
  have hfind : findSymbolIdx [JValue.obj fs] (getF u "symbol") = .ok (some 0) := by
    simp [findSymbolIdx, getField, fieldOf, hu, hfs, strictEqOpt, svz,
      Bind.bind, Except.bind]
  have hone : upsertOne [JValue.obj fs] (.obj u)
      = .ok [JValue.obj (spreadFields fs u)] := by
    simp [upsertOne, getField, fieldOf, hfind, mergeJS, toObjFields,
      Bind.bind, Except.bind]
  rw [updateMarketState, hst]
  simp [singleRecordBody, isNullJ, fieldOf, getF, List.find?, upsertAll, hone]

theorem runUpserts_from_one (sym : String) (us : List Obj) :
    ∀ (st : ServerState) (fs : Obj), st.market_data = [.obj fs] →
      getF fs "symbol" = some (.str sym) →
      (∀ u ∈ us, getF u "symbol" = some (.str sym)) →
      (runUpserts us st).market_data = [.obj (us.foldl spreadFields fs)] := by
  induction us with
  | nil =>
      intro st fs h1 _ _
      simpa [runUpserts] using h1
  | cons u us ih =>
      intro st fs h1 h2 h3
      have hu : getF u "symbol" = some (.str sym) := h3 u (by simp)
      have hstep := upsert_step_existing fs u sym st 0 h1 h2 hu
      have hsym : getF (spreadFields fs u) "symbol" = some (.str sym) := by
        rw [getF_spreadFields, hu]
        rfl
      show (runUpserts us ((updateMarketState (singleRecordBody u) 0 st).2)).market_data
          = [.obj (us.foldl spreadFields (spreadFields fs u))]
      exact ih _ _ hstep hsym (fun v hv => h3 v (List.mem_cons_of_mem _ hv))

theorem getF_foldl_spread (us : List Obj) :
    ∀ (fs : Obj) (k : String),
      getF (us.foldl spreadFields fs) k
        = us.foldl (fun acc u => fieldOr (getF u k) acc) (getF fs k) := by
  induction us with
  | nil => intro fs k; rfl
  | cons u us ih =>
      intro fs k
      rw [List.foldl_cons, List.foldl_cons, ih, getF_spreadFields]

/-!  Lemmas about the merged dashboard view. -/

theorem buildAll_spec (cache : List (JValue × AnalysisRec)) :
    ∀ (l : List JValue) (recs : List MergedRec), buildAll cache l = .ok recs →
      recs.length = l.length
      ∧ (∀ (i : Nat) (h1 : i < recs.length) (h2 : i < l.length),
          (recs.get ⟨i, h1⟩).symbol
            = jsOr (fieldOf (l.get ⟨i, h2⟩) "symbol") (.str "UNKNOWN"))
      ∧ ((∀ s ∈ l, truthy (fieldOf s "symbol") = true) →
          recs.map (fun r => r.symbol)
            = l.filterMap (fun s => fieldOf s "symbol")) := by
  intro l
  induction l with
  | nil =>
      intro recs h
      simp [buildAll] at h
      subst h
      simp
  | cons e rest ih =>
      intro recs h
      rw [buildAll] at h
      cases hg : getField e "symbol" with
      | error u =>
          rw [hg] at h
          simp [Bind.bind, Except.bind] at h
      | ok sym =>
          rw [hg] at h
          cases hb : buildAll cache rest with
          | error u =>
              rw [hb] at h
              simp [Bind.bind, Except.bind] at h
          | ok tail =>
              rw [hb] at h
              simp [Bind.bind, Except.bind] at h
              subst h
              obtain ⟨ihl, ihg, iht⟩ := ih tail hb
              refine ⟨by simp [ihl], ?_, ?_⟩
              · intro i hi1 hi2
                cases i with
                | zero => rfl
                | succ j =>
                    exact ihg j (by simpa using hi1) (by simpa using hi2)
              · intro htr
                have he : truthy (fieldOf e "symbol") = true := htr e (by simp)
                cases hf : fieldOf e "symbol" with
                | none => rw [hf] at he; simp [truthy] at he
                | some v =>
                    rw [hf] at he
                    have hv : truthyV v = true := he
                    simp [List.filterMap_cons, hf, mergeSymbolData, jsOr, hv,
                      iht (fun s hs => htr s (List.mem_cons_of_mem _ hs))]

theorem approvedCmds_length (bs : List JValue) :
    ∀ st : ServerState, allSucceed bs st = true →
      (approvedCmds bs st).length = bs.length := by
  induction bs with
  | nil => intro st _; rfl
  | cons b bs ih =>
      intro st h
      rw [allSucceed, Bool.and_eq_true] at h
      rw [approvedCmds]
      cases he : emittedCmd b st
      · rw [he] at h
        simp at h
      · simp [he, ih _ h.2]

/-!  Claim theorems. -/

/-- C1 (amended): sticky merge operates at the level of object keys, not of
non-null values.  During a `/update-market-state` upsert of an existing
symbol, every field whose key appears in the incoming record — even with a
JSON `null` value — overwrites the stored value, and every key absent from
the incoming record leaves the stored value untouched; consequently, over
any sequence of single-record updates for one symbol, a field whose key is
not contained in update N holds the value from the last update whose record
contained that key. -/
theorem upsert_sticky_merge_key_level :
    (∀ (a b : Obj) (k : String),
        getF (spreadFields a b) k = fieldOr (getF b k) (getF a k))
    ∧ ∀ (us : List Obj) (sym : String), us ≠ [] →
        (∀ u ∈ us, getF u "symbol" = some (.str sym)) →
        (runUpserts us initialServerState).market_data
            = [.obj (us.foldl spreadFields [])]
        ∧ ∀ k : String, getF (us.foldl spreadFields []) k = lastVal us k := by
  refine ⟨getF_spreadFields, ?_⟩
  intro us sym hne hall
  obtain ⟨u, us', rfl⟩ : ∃ u us', us = u :: us' := by
    cases us with
    | nil => exact absurd rfl hne
    | cons u us' => exact ⟨u, us', rfl⟩
  constructor
  · have h1 : ((updateMarketState (singleRecordBody u) 0 initialServerState).2).market_data
        = [.obj u] := upsert_step_first u _ 0 rfl
    have hu : getF u "symbol" = some (.str sym) := hall u (by simp)
    have hrest := runUpserts_from_one sym us' _ u h1 hu
        (fun v hv => hall v (List.mem_cons_of_mem _ hv))
    show (runUpserts us'
          ((updateMarketState (singleRecordBody u) 0 initialServerState).2)).market_data
        = [.obj ((u :: us').foldl spreadFields [])]
    rw [List.foldl_cons, spreadFields_nil]
    exact hrest
  · intro k
    rw [getF_foldl_spread, lastVal]
    rfl

/-- C1 counterexample: the claim as stated is false.  After upserting
`{symbol: "S", price: 5, bid: 3}` and then `{symbol: "S", price: null}`, the
stored `price` is `null`: a field that is present-but-null in update 2 does
NOT retain the value 5 set by update 1, because the JavaScript spread
`{...existing, ...newSymbol}` copies null-valued keys. -/
theorem upsert_null_field_counterexample :
    (runUpserts [stickyU1, stickyU2] initialServerState).market_data.map
        (fun r => fieldOf r "price") = [some JValue.null]
    ∧ (runUpserts [stickyU1, stickyU2] initialServerState).market_data.map
        (fun r => fieldOf r "price") ≠ [some (JValue.num 5)] := by
  refine ⟨rfl, ?_⟩
  intro h
  have h0 : ([some JValue.null] : List (Option JValue)) = [some (JValue.num 5)] := h
  injection h0 with h1 _
  injection h1 with h2
  exact JValue.noConfusion h2

/-- C1 witness: the amended theorem applied to the two-update sequence for
symbol S; the untouched `bid` field keeps the value of the update that last
contained it. -/
theorem upsert_sticky_merge_key_level_witness :
    (runUpserts [stickyU1, stickyU2] initialServerState).market_data
        = [.obj ([stickyU1, stickyU2].foldl spreadFields [])]
    ∧ getF ([stickyU1, stickyU2].foldl spreadFields []) "bid"
        = lastVal [stickyU1, stickyU2] "bid" := by
  have h := upsert_sticky_merge_key_level.2 [stickyU1, stickyU2] "S"
      (by simp)
      (by
        intro v hv
        simp [List.mem_cons] at hv
        rcases hv with rfl | rfl <;> rfl)
  exact ⟨h.1, h.2 "bid"⟩

/-- C2: wholesale replace on analysis put.  Putting a payload for symbol
`v` through `/market-analysis` leaves the cache holding exactly
`mkAnalysisRec payload now` for `v` — an object built from the incoming
payload and the put time alone, with no dependence on the previous cache
contents (so no residue from any earlier put survives) — and every stored
field equals the corresponding payload property (absent payload properties
are stored absent and defaulted only at read time). -/
theorem analysis_put_wholesale_replace :
    ∀ (st : ServerState) (es : Obj) (v : JValue) (now : Nat),
      getF es "symbol" = some v → truthyV v = true → svz v v = true →
      mapGet (marketAnalysis (.obj [("market_data", .arr [.obj es])]) now
          st).2.dashboardCache (some v)
        = some (mkAnalysisRec (.obj es) now)
      ∧ (mkAnalysisRec (.obj es) now).bias = getF es "bias"
      ∧ (mkAnalysisRec (.obj es) now).green_count = getF es "green_count"
      ∧ (mkAnalysisRec (.obj es) now).confidence = getF es "confidence"
      ∧ (mkAnalysisRec (.obj es) now).insight = getF es "insight"
      ∧ (mkAnalysisRec (.obj es) now).indicators = getF es "indicators"
      ∧ (mkAnalysisRec (.obj es) now).market_regime = getF es "market_regime"
      ∧ (mkAnalysisRec (.obj es) now).bias_stability = getF es "bias_stability"
      ∧ (mkAnalysisRec (.obj es) now).confluence_breakdown
          = getF es "confluence_breakdown"
      ∧ (mkAnalysisRec (.obj es) now).context_history = getF es "context_history"
      ∧ (mkAnalysisRec (.obj es) now).state_statistics = getF es "state_statistics"
      ∧ (mkAnalysisRec (.obj es) now).current_session = getF es "current_session"
      ∧ (mkAnalysisRec (.obj es) now).session_intelligence
          = getF es "session_intelligence"
      ∧ (mkAnalysisRec (.obj es) now).strategies = getF es "strategies"
      ∧ (mkAnalysisRec (.obj es) now).confluence = getF es "confluence"
      ∧ (mkAnalysisRec (.obj es) now).last_update = now := by
  intro st es v now hsym htr hself
  have hput : putAll now st.dashboardCache [JValue.obj es]
      = (false, mapSet st.dashboardCache v (mkAnalysisRec (.obj es) now)) := by
    simp [putAll, getField, fieldOf, hsym, htr]
  refine ⟨?_, rfl, rfl, rfl, rfl, rfl, rfl, rfl, rfl, rfl, rfl, rfl, rfl, rfl,
    rfl, rfl⟩
  rw [marketAnalysis]
  simp only [isNullJ, Bool.false_eq_true, ite_false]
  have hmd : fieldOf (JValue.obj [("market_data", .arr [.obj es])]) "market_data"
      = some (.arr [.obj es]) := rfl
  rw [hmd]
  simp only [hput, Bool.false_eq_true, ite_false]
  exact mapGet_mapSet_self _ _ _ hself

/-- C2 witness: putting the symbol-X payload over a state already caching an
older record for X yields exactly the record built from the new payload. -/
theorem analysis_put_wholesale_replace_witness :
    mapGet (marketAnalysis (.obj [("market_data", .arr [.obj analysisPayload])])
        42 analysisPriorState).2.dashboardCache (some (.str "X"))
      = some (mkAnalysisRec (.obj analysisPayload) 42) :=
  (analysis_put_wholesale_replace analysisPriorState analysisPayload
    (.str "X") 42 rfl rfl rfl).1

/-- C3: FIFO exactly-once draining.  Starting with an empty command queue,
any sequence of `/approve-signal` calls leaves the queue holding exactly the
emitted commands in call order; `n` subsequent `/last-signal` polls return
those commands in that order, each exactly once, followed by the
`{action: 'NONE'}` sentinel (not an error) once the queue is exhausted, after
which the queue is empty; and when every approve call succeeds, exactly one
command is queued per call. -/
theorem queue_fifo_exactly_once :
    ∀ (bodies : List JValue) (st : ServerState) (n : Nat),
      st.commandQueue = [] →
      (applyApproves bodies st).commandQueue = approvedCmds bodies st
      ∧ (pollMany n (applyApproves bodies st)).1
          = ((approvedCmds bodies st).take n).map PollResult.cmd
            ++ List.replicate (n - (approvedCmds bodies st).length)
                PollResult.noneSentinel
      ∧ ((approvedCmds bodies st).length ≤ n →
          (pollMany n (applyApproves bodies st)).2.commandQueue = [])
      ∧ (allSucceed bodies st = true →
          (approvedCmds bodies st).length = bodies.length) := by
  intro bodies st n hq
  have hqueue : (applyApproves bodies st).commandQueue = approvedCmds bodies st := by
    rw [applyApproves_queue, hq, List.nil_append]
  refine ⟨hqueue, ?_, ?_, approvedCmds_length bodies st⟩
  · rw [pollMany_results, hqueue]
  · intro hlen
    exact pollMany_drained n _ (by rw [hqueue]; exact hlen)

/-- C3 witness: one submitted signal, one approval, two polls — the first
poll returns the queued command, the second returns the sentinel, and the
queue ends empty. -/
theorem queue_fifo_exactly_once_witness :
    fifoSubmitted.commandQueue = []
    ∧ (pollMany 2 (applyApproves fifoBodies fifoSubmitted)).1
        = ((approvedCmds fifoBodies fifoSubmitted).take 2).map PollResult.cmd
          ++ List.replicate (2 - (approvedCmds fifoBodies fifoSubmitted).length)
              PollResult.noneSentinel
    ∧ (pollMany 2 (applyApproves fifoBodies fifoSubmitted)).2.commandQueue = []
    ∧ (approvedCmds fifoBodies fifoSubmitted).length = fifoBodies.length :=
  ⟨rfl,
   (queue_fifo_exactly_once fifoBodies fifoSubmitted 2 rfl).2.1,
   (queue_fifo_exactly_once fifoBodies fifoSubmitted 2 rfl).2.2.1 (by decide),
   (queue_fifo_exactly_once fifoBodies fifoSubmitted 2 rfl).2.2.2 (by decide)⟩

/-- C6: approving an unknown `cmd_id` under the v3 relay is the lenient
policy: the handler answers `{ok: true}` and the whole state — command queue
and pending-signal tracking included — is unchanged. -/
theorem approve_unknown_id_lenient_noop :
    ∀ (body : JValue) (st : ServerState),
      isNullJ body = false →
      mapGet st.pendingApprovals (fieldOf body "cmd_id") = none →
      approveSignal body st = (.ok, st) := by
  intro body st hnull hget
  rw [approveSignal]
  simp only [hnull, Bool.false_eq_true, ite_false]
  cases hc : fieldOf body "cmd_id" with
  | none => rfl
  | some k =>
      rw [hc] at hget
      simp [hget]

/-- C6 witness: approving the never-submitted id `OX_404` over a state that
tracks an unrelated signal returns ok and changes nothing. -/
theorem approve_unknown_id_lenient_noop_witness :
    approveSignal (.obj [("cmd_id", .str "OX_404")]) receiptState
      = (.ok, receiptState) :=
  approve_unknown_id_lenient_noop _ _ rfl rfl

/-- C10: approve is not idempotent on the queue.  Approving a tracked
`cmd_id` `n` times appends exactly `n` copies of the built command — the
handler pushes on every call, even when the signal is already APPROVED. -/
theorem approve_repeats_enqueue_copies :
    ∀ (n : Nat) (st : ServerState) (body k : JValue) (p : Pending),
      isNullJ body = false →
      fieldOf body "cmd_id" = some k →
      mapGet st.pendingApprovals (some k) = some p →
      isNullJ p.signal = false →
      (applyApproves (List.replicate n body) st).commandQueue
        = st.commandQueue
          ++ List.replicate n (buildQueueSignal k (fieldOf body "lot") p.signal) := by
  intro n
  induction n with
  | zero =>
      intro st body k p _ _ _ _
      simp [applyApproves]
  | succ n ih =>
      intro st body k p hnull hcid hget hsig
      have hred : approveSignal body st
          = (.ok, { st with
                pendingApprovals :=
                  mapUpdate st.pendingApprovals k
                    (fun q => { q with status := .APPROVED })
                commandQueue :=
                  st.commandQueue
                    ++ [buildQueueSignal k (fieldOf body "lot") p.signal] }) := by
        rw [approveSignal]
        simp [hnull, hcid, hget, hsig]
      have hget' : mapGet (mapUpdate st.pendingApprovals k
            (fun q => { q with status := SigStatus.APPROVED })) (some k)
          = some { p with status := SigStatus.APPROVED } := by
        rw [mapGet_mapUpdate_self, hget]
        rfl
      rw [List.replicate_succ]
      show (applyApproves (List.replicate n body) (approveSignal body st).2).commandQueue
          = _
      rw [hred]
      rw [ih _ body k { p with status := .APPROVED } hnull hcid hget' hsig]
      rw [List.append_assoc]
      rfl

/-- C10 witness: approving the tracked id `OX_1` three times enqueues three
copies of the command. -/
theorem approve_repeats_enqueue_copies_witness :
    (applyApproves (List.replicate 3 (.obj [("cmd_id", .str "OX_1")]))
        fifoSubmitted).commandQueue
      = fifoSubmitted.commandQueue
        ++ List.replicate 3 (buildQueueSignal (.str "OX_1")
            (fieldOf (.obj [("cmd_id", .str "OX_1")]) "lot") fifoSignalBody) :=
  approve_repeats_enqueue_copies 3 fifoSubmitted _ (.str "OX_1")
    ⟨fifoSignalBody, .PENDING, 1⟩ rfl rfl rfl rfl

/-- C4: receipt retirement.  Recording a receipt whose truthy `cmd_id`
matches a tracked signal — whatever its status, PENDING or APPROVED —
answers ok, appends the receipt unconditionally, and removes the signal from
tracking, so it no longer appears in the `/pending-approvals` listing. -/
theorem receipt_retires_tracked_signal :
    ∀ (st : ServerState) (body c : JValue) (p : Pending),
      getField body "cmd_id" = .ok (some c) → truthyV c = true →
      mapGet st.pendingApprovals (some c) = some p →
      (executionReceipt body st).1 = .ok
      ∧ (executionReceipt body st).2.receipts = st.receipts ++ [body]
      ∧ mapGet (executionReceipt body st).2.pendingApprovals (some c) = none
      ∧ ∀ item ∈ pendingItems (executionReceipt body st).2,
          svz item.cmd_id c = false := by
  intro st body c p hcid htr _hp
  have hred : executionReceipt body st
      = (.ok, { st with receipts := st.receipts ++ [body]
                        pendingApprovals := mapDelete st.pendingApprovals c }) := by
    rw [executionReceipt, hcid]
    simp [htr]
  rw [hred]
  refine ⟨rfl, rfl, mapGet_mapDelete_self _ _, ?_⟩
  intro item hitem
  rw [pendingItems] at hitem
  obtain ⟨q, hq, rfl⟩ := List.mem_map.mp hitem
  exact mapDelete_keys _ _ q hq

/-- C4 witness: a receipt for `OX_1` retires the already-APPROVED tracked
signal `OX_1` and is appended to the receipt log. -/
theorem receipt_retires_tracked_signal_witness :
    (executionReceipt receiptBody receiptState).1 = .ok
    ∧ (executionReceipt receiptBody receiptState).2.receipts
        = receiptState.receipts ++ [receiptBody]
    ∧ mapGet (executionReceipt receiptBody receiptState).2.pendingApprovals
        (some (.str "OX_1")) = none := by
  have h := receipt_retires_tracked_signal receiptState receiptBody (.str "OX_1")
      ⟨.obj [("symbol", .str "XAUUSD")], .APPROVED, 5⟩ rfl rfl rfl
  exact ⟨h.1, h.2.1, h.2.2.1⟩

/-- C5: submit validation and countdown.  A signal whose `symbol` or
`action` is falsy is rejected with a 400 and nothing is stored; a signal
with truthy `symbol` and `action` and no `cmd_id` is stored as PENDING
under the generated id `OX_<Date.now()>` and the response carries that id
together with `auto_approve_in_sec = 30`. -/
theorem submit_validation_and_countdown :
    ∀ (body : JValue) (now : Nat) (st : ServerState),
      (isNullJ body = false →
        (truthy (fieldOf body "symbol") = false
          ∨ truthy (fieldOf body "action") = false) →
        submitSignal body now st = (.badRequest, st))
      ∧ (truthy (fieldOf body "symbol") = true →
          truthy (fieldOf body "action") = true →
          fieldOf body "cmd_id" = none →
          submitSignal body now st
            = (.pendingApproval (.str ("OX_" ++ toString now)) 30,
               { st with
                   pendingApprovals :=
                     mapSet st.pendingApprovals (.str ("OX_" ++ toString now))
                       ⟨body, .PENDING, now / 1000⟩ })) := by
  intro body now st
  constructor
  · intro hnull hbad
    rw [submitSignal]
    simp only [hnull, Bool.false_eq_true, ite_false]
    rcases hbad with h | h <;> simp [h]
  · intro hs ha hcid
    have hnull : isNullJ body = false := by
      cases body <;> first
        | rfl
        | (exfalso; rw [show fieldOf JValue.null "symbol" = none from rfl] at hs
           exact Bool.noConfusion hs)
    rw [submitSignal]
    simp [hnull, hs, ha, hcid, jsOr]

/-- C5 witness: submitting `{symbol: "XAUUSD"}` without an action is
rejected and stores nothing, while `{symbol: "XAUUSD", action: "BUY"}` with
no `cmd_id` stores a PENDING entry under a generated id and reports the
30-second countdown. -/
theorem submit_validation_and_countdown_witness :
    submitSignal (.obj [("symbol", .str "XAUUSD")]) 7 initialServerState
      = (.badRequest, initialServerState)
    ∧ submitSignal (.obj [("symbol", .str "XAUUSD"), ("action", .str "BUY")]) 7
        initialServerState
      = (.pendingApproval (.str ("OX_" ++ toString 7)) 30,
         { initialServerState with
             pendingApprovals :=
               mapSet initialServerState.pendingApprovals
                 (.str ("OX_" ++ toString 7))
                 ⟨.obj [("symbol", .str "XAUUSD"), ("action", .str "BUY")],
                  .PENDING, 7 / 1000⟩ }) :=
  ⟨(submit_validation_and_countdown _ 7 initialServerState).1 rfl (Or.inr rfl),
   (submit_validation_and_countdown _ 7 initialServerState).2 rfl rfl rfl⟩

/-- C7 (amended): the merged view has exactly one record per SymbolStore
record — a record present only in the AnalysisCache never contributes one —
and the i-th view record's symbol is the i-th store record's `symbol` field
when that is truthy, and the literal `"UNKNOWN"` otherwise.  In particular,
when every store record carries a truthy symbol, the view's symbols are
exactly the store's symbols. -/
theorem buildView_symbols_from_store :
    ∀ (st : ServerState) (now : Nat) (cs : CompleteState),
      getCompleteMarketState st now = .ok cs →
      cs.market_data.length = st.market_data.length
      ∧ (∀ (i : Nat) (h1 : i < cs.market_data.length)
            (h2 : i < st.market_data.length),
          (cs.market_data.get ⟨i, h1⟩).symbol
            = jsOr (fieldOf (st.market_data.get ⟨i, h2⟩) "symbol")
                (.str "UNKNOWN"))
      ∧ ((∀ s ∈ st.market_data, truthy (fieldOf s "symbol") = true) →
          cs.market_data.map (fun r => r.symbol)
            = st.market_data.filterMap (fun s => fieldOf s "symbol")) := by
  intro st now cs h
  rw [getCompleteMarketState] at h
  cases hb : buildAll st.dashboardCache st.market_data with
  | error u =>
      rw [hb] at h
      simp [Bind.bind, Except.bind] at h
  | ok data =>
      rw [hb] at h
      simp [Bind.bind, Except.bind] at h
      obtain ⟨h1, h2, h3⟩ := buildAll_spec st.dashboardCache st.market_data data hb
      subst h
      exact ⟨h1, h2, h3⟩

/-- C7 counterexample: the claim as stated is false.  On the reachable state
whose single price record has no `symbol` key (store symbols: none at all,
analysis cache empty), the merged view still contains one record, with the
synthesized symbol `"UNKNOWN"` — a symbol not present in the SymbolStore. -/
theorem buildView_unknown_symbol_counterexample :
    (getCompleteMarketState noSymState 500).map
        (fun cs => cs.market_data.map (fun r => r.symbol))
      = .ok [.str "UNKNOWN"]
    ∧ noSymState.market_data.map (fun r => fieldOf r "symbol") = [none]
    ∧ noSymState.dashboardCache = [] :=
  ⟨rfl, rfl, rfl⟩

/-- C7 witness: on a state with one truthy-symbol price record and an
analysis record for a different symbol, the view's symbols are exactly the
store's symbols, and the analysis-only symbol does not appear. -/
theorem buildView_symbols_from_store_witness :
    viewCS.market_data.length = viewState.market_data.length
    ∧ viewCS.market_data.map (fun r => r.symbol)
        = viewState.market_data.filterMap (fun s => fieldOf s "symbol") := by
  have h := buildView_symbols_from_store viewState 99 viewCS rfl
  refine ⟨h.1, h.2.2 ?_⟩
  intro s hs
  simp [viewState] at hs
  subst hs
  rfl

/-- C8 (amended): only shape validation is atomic.  A batch rejected by the
whole-batch shape check (missing or non-array `market_data`) leaves the
relay state exactly as it was, for both `/update-market-state` and
`/market-analysis`; a fault raised mid-batch, by contrast, is rejected with
a 500 but may leave the store partially mutated (see the counterexample). -/
theorem batch_shape_rejection_leaves_state :
    ∀ (body : JValue) (now : Nat) (st : ServerState),
      ((updateMarketState body now st).1 = .badRequest →
        (updateMarketState body now st).2 = st)
      ∧ ((marketAnalysis body now st).1 = .badRequest →
        (marketAnalysis body now st).2 = st) := by
  intro body now st
  constructor
  · intro h
    rw [updateMarketState] at h ⊢
    cases hn : isNullJ body
    · rw [hn] at h
      simp only [Bool.false_eq_true, ite_false] at h ⊢
      cases hm : fieldOf body "market_data" with
      | none => rfl
      | some v =>
          rw [hm] at h
          cases v with
          | arr es =>
              cases ht : (upsertAll st.market_data es).1 <;>
                simp [ht] at h
          | null => rfl
          | bool b => rfl
          | num q => rfl
          | str s => rfl
          | obj fs => rfl
    · rfl
  · intro h
    rw [marketAnalysis] at h ⊢
    cases hn : isNullJ body
    · rw [hn] at h
      simp only [Bool.false_eq_true, ite_false] at h ⊢
      cases hm : fieldOf body "market_data" with
      | none => rfl
      | some v =>
          rw [hm] at h
          cases v with
          | arr es =>
              cases ht : (putAll now st.dashboardCache es).1 <;>
                simp [ht] at h
          | null => rfl
          | bool b => rfl
          | num q => rfl
          | str s => rfl
          | obj fs => rfl
    · rfl

/-- C8 counterexample: the claim as stated is false.  The price batch
`[{symbol: "A", price: 1}, null]` is rejected with a 500 (the `null` element
throws inside the merge loop), yet the first element was already merged: the
rejected call leaves the SymbolStore partially mutated. -/
theorem batch_partial_mutation_counterexample :
    (updateMarketState partialBatchBody 7 initialServerState).1 = .serverError
    ∧ (updateMarketState partialBatchBody 7 initialServerState).2.market_data
        = [.obj [("symbol", .str "A"), ("price", .num 1)]]
    ∧ (updateMarketState partialBatchBody 7 initialServerState).2.market_data
        ≠ initialServerState.market_data := by
  refine ⟨rfl, rfl, ?_⟩
  intro h
  exact absurd (congrArg List.length h) (by decide)

/-- C8 witness: the amended theorem applied to a body whose `market_data` is
a string — both handlers answer 400 and leave the state untouched. -/
theorem batch_shape_rejection_leaves_state_witness :
    (updateMarketState (.obj [("market_data", .str "nope")]) 3
        initialServerState).2 = initialServerState
    ∧ (marketAnalysis (.obj [("market_data", .str "nope")]) 3
        initialServerState).2 = initialServerState :=
  ⟨(batch_shape_rejection_leaves_state _ 3 initialServerState).1 rfl,
   (batch_shape_rejection_leaves_state _ 3 initialServerState).2 rfl⟩

/-- Scanning a store of symbol-keyed objects for an `undefined` symbol never
matches and never throws. -/
theorem findSymbolIdx_no_keyless (store : List JValue)
    (h : ∀ s ∈ store, ∃ fs : Obj, s = .obj fs ∧ getF fs "symbol" ≠ none) :
    findSymbolIdx store none = .ok none := by
  induction store with
  | nil => rfl
  | cons s rest ih =>
      obtain ⟨fs, rfl, hfs⟩ := h s (by simp)
      have hrest := ih (fun x hx => h x (List.mem_cons_of_mem _ hx))
      rw [findSymbolIdx]
      cases hg : getF fs "symbol" with
      | none => exact absurd hg hfs
      | some w =>
          simp [getField, fieldOf, hg, strictEqOpt, hrest, Bind.bind, Except.bind]

/-- The `findIndex` scan over a store of objects never throws. -/
theorem findSymbolIdx_objects (nk : Option JValue) :
    ∀ store : List JValue, (∀ s ∈ store, ∃ o : Obj, s = .obj o) →
      ∃ r, findSymbolIdx store nk = .ok r := by
  intro store
  induction store with
  | nil => intro _; exact ⟨none, rfl⟩
  | cons s rest ih =>
      intro h
      obtain ⟨o, rfl⟩ := h s (by simp)
      obtain ⟨r, hr⟩ := ih (fun x hx => h x (List.mem_cons_of_mem _ hx))
      cases hq : strictEqOpt (getF o "symbol") nk
      · exact ⟨r.map Nat.succ, by
          rw [findSymbolIdx]
          simp [getField, fieldOf, hq, hr, Bind.bind, Except.bind]⟩
      · exact ⟨some 0, by
          rw [findSymbolIdx]
          simp [getField, fieldOf, hq, Bind.bind, Except.bind]⟩

/-- Merging one object record into an all-object store never throws and
keeps the store all-object. -/
theorem upsertOne_objects (store : List JValue) (o : Obj)
    (hs : ∀ s ∈ store, ∃ q : Obj, s = .obj q) :
    ∃ store', upsertOne store (.obj o) = .ok store'
      ∧ ∀ s ∈ store', ∃ q : Obj, s = .obj q := by
  obtain ⟨r, hr⟩ := findSymbolIdx_objects (getF o "symbol") store hs
  cases r with
  | none =>
      refine ⟨store ++ [.obj o], ?_, ?_⟩
      · simp [upsertOne, getField, fieldOf, hr, Bind.bind, Except.bind]
      · intro s hsm
        rcases List.mem_append.mp hsm with h | h
        · exact hs s h
        · simp at h
          subst h
          exact ⟨o, rfl⟩
  | some i =>
      refine ⟨store.set i (mergeJS (store.getD i .null) (.obj o)), ?_, ?_⟩
      · simp [upsertOne, getField, fieldOf, hr, Bind.bind, Except.bind]
      · intro s hsm
        rcases List.mem_or_eq_of_mem_set hsm with h | h
        · exact hs s h
        · subst h
          exact ⟨_, rfl⟩

/-- An all-object batch over an all-object store never makes the merge loop
throw. -/
theorem upsertAll_objects_no_throw :
    ∀ (batch store : List JValue),
      (∀ s ∈ store, ∃ o : Obj, s = .obj o) →
      (∀ x ∈ batch, ∃ o : Obj, x = .obj o) →
      (upsertAll store batch).1 = false := by
  intro batch
  induction batch with
  | nil => intro store _ _; rfl
  | cons e rest ih =>
      intro store hs hb
      obtain ⟨o, rfl⟩ := hb e (by simp)
      obtain ⟨store', h1, h2⟩ := upsertOne_objects store o hs
      rw [upsertAll, h1]
      exact ih store' h2 (fun x hx => hb x (List.mem_cons_of_mem _ hx))

/-- C9 (amended): in the v3 relay a record with a missing `symbol` key is
NOT skipped.  When every stored record carries a symbol key, the keyless
incoming record is appended to the store as a new record (later keyless
records would merge into it); and an all-object batch still causes no
error.  (Only the V2.1 revision, `src/unnamed/part_002`, skips keyless
records.) -/
theorem keyless_record_insertion :
    (∀ (store : List JValue) (es : Obj),
        getF es "symbol" = none →
        (∀ s ∈ store, ∃ fs : Obj, s = .obj fs ∧ getF fs "symbol" ≠ none) →
        upsertOne store (.obj es) = .ok (store ++ [.obj es]))
    ∧ ∀ (store batch : List JValue),
        (∀ s ∈ store, ∃ o : Obj, s = .obj o) →
        (∀ x ∈ batch, ∃ o : Obj, x = .obj o) →
        (upsertAll store batch).1 = false := by
  constructor
  · intro store es hes hstore
    have hfind := findSymbolIdx_no_keyless store hstore
    simp [upsertOne, getField, fieldOf, hes, hfind, Bind.bind, Except.bind]
  · intro store batch hs hb
    exact upsertAll_objects_no_throw batch store hs hb

/-- C9 counterexample: the claim as stated is false.  Upserting the batch
`[{price: 5}]` — one record with no symbol key — into the empty store
succeeds and INSERTS the record: the store afterwards is not the empty store
it was before, so the element was not silently skipped. -/
theorem keyless_record_skip_counterexample :
    (updateMarketState keylessBatchBody 7 initialServerState).1 = .ok 1
    ∧ (updateMarketState keylessBatchBody 7 initialServerState).2.market_data
        = [.obj [("price", .num 5)]]
    ∧ (updateMarketState keylessBatchBody 7 initialServerState).2.market_data
        ≠ initialServerState.market_data := by
  refine ⟨rfl, rfl, ?_⟩
  intro h
  exact absurd (congrArg List.length h) (by decide)

/-- C9 witness: the keyless record `{price: 5}` is appended behind the
symbol-keyed record for B, and an all-object batch reports no throw. -/
theorem keyless_record_insertion_witness :
    upsertOne [.obj [("symbol", .str "B")]] (.obj [("price", .num 5)])
      = .ok [.obj [("symbol", .str "B")], .obj [("price", .num 5)]]
    ∧ (upsertAll [] [.obj [("price", .num 5)]]).1 = false := by
  constructor
  · exact keyless_record_insertion.1 [.obj [("symbol", .str "B")]]
      [("price", .num 5)] rfl
      (by
        intro s hs
        simp at hs
        subst hs
        exact ⟨[("symbol", .str "B")], rfl, fun h => Option.noConfusion h⟩)
  · exact keyless_record_insertion.2 [] [.obj [("price", .num 5)]]
      (by intro s hs; cases hs)
      (by
        intro x hx
        simp at hx
        subst hx
        exact ⟨[("price", .num 5)], rfl⟩)

end OracleX
